import Mathlib

/-!
# Verification of the iterative-search service layer

Shallow embedding of the JavaScript service layer of the
`ai-agent-search-web-report` repository, together with proofs of the
specified properties.  External I/O (search providers, the HTTP fetcher,
the screenshot client, the text-generation model and its JSON output) is
modelled by explicit oracle arguments; everything the orchestration code
itself computes is embedded as executable Lean functions that mirror the
JavaScript statement by statement.

Conventions:
* JavaScript strings are Lean `String`s; character-level operations work
  on `List Char`.  `String.prototype.toLowerCase` is modelled with
  `Char.toLower` (the code only ever lowercases search queries, titles
  and snippets).
* JavaScript numbers are embedded as `ℚ` where fractional trust weights
  occur (`1.2`, `0.8`, `0.7`, `0.1`), and as `Nat` for counts.
* A JavaScript value that may be `undefined`/`null` is an `Option`;
  truthiness of an optional string (`undefined`, `null` and `""` are
  falsy) is `jsTruthy`.
* Functions that can throw return `Except String`; functions the source
  makes total (all exceptions caught) are total Lean functions.
-/

/-- Truthiness of an optional JavaScript string: `undefined`/`null` and the
empty string are falsy, every other string is truthy. -/
def jsTruthy : Option String → Bool
  | none => false
  | some s => s ≠ ""

/-- `a || b` on optional JavaScript strings. -/
def jsOrStr (a b : Option String) : Option String :=
  if jsTruthy a then a else b

/-- Lowercase a string character by character, modelling
`String.prototype.toLowerCase` on the material the service lowercases. -/
def lowerStr (s : String) : String :=
  s.map Char.toLower

/-- Does `hay` contain `needle` as a contiguous segment?  Models
`String.prototype.includes`. -/
def containsSeg (needle : List Char) : List Char → Bool
  | [] => needle.isEmpty
  | c :: t => needle.isPrefixOf (c :: t) || containsSeg needle t

/-- String-level wrapper for `containsSeg`: `s.includes(pat)`. -/
def strIncludes (s pat : String) : Bool :=
  containsSeg pat.toList s.toList

/-- Split a character list on maximal whitespace runs, modelling
`String.prototype.split(/\s+/)`: a leading or trailing whitespace run
produces an empty piece, and the empty string yields `[[]]`.
(JavaScript's `\s` covers more Unicode space characters than
`Char.isWhitespace`; the service only splits search queries, where the
difference is immaterial.) -/
def jsSplitWs : List Char → List (List Char)
  | [] => [[]]
  | c :: rest =>
    if c.isWhitespace then
      match rest with
      | r :: _ =>
        if r.isWhitespace then jsSplitWs rest else [] :: jsSplitWs rest
      | [] => [] :: jsSplitWs rest
    else
      match jsSplitWs rest with
      | [] => [[c]]
      | p :: ps => (c :: p) :: ps

/-- JavaScript `String.prototype.trim` on a character list (strip leading
and trailing whitespace). -/
def jsTrimChars (l : List Char) : List Char :=
  ((l.dropWhile Char.isWhitespace).reverse.dropWhile Char.isWhitespace).reverse

/-!
## Data model

`SearchResult` embeds the normalized result records produced by the
search providers (`source`, `title`, `url`, `snippet`), the optional
`content`/`scrapedAt` fields filled in by content enhancement, and the
`relevanceScore` attached by ranking.  JavaScript objects are open
records; the embedding fixes exactly the fields the service layer reads
or writes. -/
structure SearchResult where
  source : String
  title : String
  url : String
  snippet : String
  content : Option String := none
  scrapedAt : Option Nat := none
  relevanceScore : ℚ := 0
deriving DecidableEq, Repr

/-- Content length used by deduplication: `(r.content || '').length`. -/
def contentLen (r : SearchResult) : Nat :=
  (r.content.getD "").length

/-- The replacement test of `deduplicateResults`:
`result.content && result.content.length > (existing.content || '').length`.
(`result.content` is truthy exactly when it is a nonempty string.) -/
def dedupReplaceCond (incoming existing : SearchResult) : Bool :=
  match incoming.content with
  | none => false
  | some c => (c ≠ "" : Bool) && decide (c.length > contentLen existing)

/-- `uniqueResults[existingIndex] = result` after
`findIndex(r => r.url === result.url)`: replace the first entry with the
same URL when the incoming content is strictly longer. -/
def dedupUpdate (incoming : SearchResult) : List SearchResult → List SearchResult
  | [] => []
  | x :: xs =>
    if x.url == incoming.url then
      (if dedupReplaceCond incoming x then incoming else x) :: xs
    else
      x :: dedupUpdate incoming xs

/-- One iteration of the `for (const result of results)` loop of
`deduplicateResults`, carrying the `seen` URL set and the accumulated
`uniqueResults` array. -/
def dedupStep (acc : List String × List SearchResult) (r : SearchResult) :
    List String × List SearchResult :=
  if acc.1.contains r.url then
    (acc.1, dedupUpdate r acc.2)
  else
    (r.url :: acc.1, acc.2 ++ [r])

/-- `SearchService.deduplicateResults`: key results by URL; on a repeated
URL keep the entry whose extracted content is strictly longer, otherwise
the first seen. -/
def deduplicateResults (results : List SearchResult) : List SearchResult :=
  (results.foldl dedupStep ([], [])).2

/-- The loop invariant of `deduplicateResults`: every URL of the
accumulated unique list is registered in `seen`, and those URLs are
pairwise distinct. -/
def DedupInv (acc : List String × List SearchResult) : Prop :=
  (∀ u ∈ acc.2.map (fun x => x.url), acc.1.contains u = true)
    ∧ (acc.2.map (fun x => x.url)).Nodup

/-!
## Ranking (`sortResultsByRelevance`)
-/

/-- The per-source trust multipliers of `sortResultsByRelevance`
(`{google: 1.0, wikipedia: 1.2, other: 0.8}`), with the
`sourceWeights[result.source] || 1.0` default for unknown sources. -/
def sourceWeight (source : String) : ℚ :=
  if source == "google" then 1
  else if source == "wikipedia" then 12 / 10
  else if source == "other" then 8 / 10
  else 1

/-- The lowercased title of a result, as a character list. -/
def titleChars (r : SearchResult) : List Char :=
  (lowerStr r.title).toList

/-- The lowercased `` `${result.title} ${result.snippet}` `` text, as a
character list. -/
def textChars (r : SearchResult) : List Char :=
  (lowerStr (r.title ++ " " ++ r.snippet)).toList

/-- The `queryTerms.forEach` accumulation of `sortResultsByRelevance`:
`score += 2` per term contained in the title, `score += 1` per term
contained in title+snippet. -/
def relevanceBase (queryTerms : List (List Char)) (titleL textL : List Char) : Nat :=
  queryTerms.foldl
    (fun sc term =>
      (sc + (if containsSeg term titleL then 2 else 0)) +
        (if containsSeg term textL then 1 else 0))
    0

/-- The query tokens: `query.toLowerCase().split(/\s+/)`. -/
def queryTokens (query : String) : List (List Char) :=
  jsSplitWs (lowerStr query).toList

/-- Attach the relevance score to one result:
`{...result, relevanceScore: score}` with
`score = base * sourceWeights[source]`. -/
def addRelevanceScore (query : String) (r : SearchResult) : SearchResult :=
  { r with
    relevanceScore :=
      (relevanceBase (queryTokens query) (titleChars r) (textChars r) : ℚ) *
        sourceWeight r.source }

/-- The comparison order of `.sort((a, b) => b.relevanceScore - a.relevanceScore)`:
`a` may precede `b` exactly when `a.relevanceScore ≥ b.relevanceScore`. -/
def scoreGE (a b : SearchResult) : Prop :=
  b.relevanceScore ≤ a.relevanceScore

instance : DecidableRel scoreGE := fun a b =>
  inferInstanceAs (Decidable (b.relevanceScore ≤ a.relevanceScore))

instance : IsTotal SearchResult scoreGE :=
  ⟨fun a b => le_total b.relevanceScore a.relevanceScore⟩

instance : IsTrans SearchResult scoreGE :=
  ⟨fun _ _ _ hab hbc => le_trans hbc hab⟩

/-- `SearchService.sortResultsByRelevance`: attach a relevance score to
every result and sort descending by it.  JavaScript `Array.prototype.sort`
is stable and its result under a consistent comparator is the unique
stable order, here realised by `List.insertionSort` with the total
preorder `scoreGE`. -/
def sortResultsByRelevance (results : List SearchResult) (query : String) :
    List SearchResult :=
  (results.map (addRelevanceScore query)).insertionSort scoreGE

/-!
## Round search (`searchMultipleSources`)

Each provider call is an oracle outcome: `.ok results` when the provider
resolved, `.error message` when it rejected (the `.catch` attached to
each promise converts a rejection into a `{source, error}` record, which
the merge loop skips).  The default source list enables both providers,
Google first. -/

/-- `SearchService.searchMultipleSources` with both default providers
enabled: merge the non-failed provider results in promise order
(Google, then Wikipedia), deduplicate, rank, and truncate to
`maxResults`. -/
def searchMultipleSources (google wikipedia : Except String (List SearchResult))
    (query : String) (maxResults : Nat) : List SearchResult :=
  let merged :=
    (match google with
      | .ok rs => rs
      | .error _ => []) ++
    (match wikipedia with
      | .ok rs => rs
      | .error _ => [])
  (sortResultsByRelevance (deduplicateResults merged) query).take maxResults

/-!
## Content enhancement (`enhanceResultsWithContent`)

`scrapePageContent` never raises: a fetch/parse failure degrades to the
empty string.  It is therefore modelled as a total oracle
`fetch : String → String` from URLs to extracted text (with `""` for a
failed fetch).  `new Date()` is modelled by a single timestamp `now`. -/

/-- The per-result body of the batch map:
`{...result, content, scrapedAt: new Date()}`. -/
def enhanceOne (fetch : String → String) (now : Nat) (r : SearchResult) :
    SearchResult :=
  { r with content := some (fetch r.url), scrapedAt := some now }

/-- The `for (let i = 0; i < results.length; i += batchSize)` loop of
`enhanceResultsWithContent`, by remaining fuel (each non-empty step
consumes at least one result, so `l.length` fuel always suffices). -/
def enhanceGo (fetch : String → String) (now : Nat) :
    Nat → List SearchResult → List SearchResult
  | 0, l => l
  | _ + 1, [] => []
  | fuel + 1, r :: rest =>
    ((r :: rest).take 5).map (enhanceOne fetch now) ++
      enhanceGo fetch now fuel ((r :: rest).drop 5)

/-- `SearchService.enhanceResultsWithContent`: process the result list in
batches of `batchSize = 5`, mapping `enhanceOne` over each batch and
appending the batch outputs in order. -/
def enhanceResultsWithContent (fetch : String → String) (now : Nat)
    (results : List SearchResult) : List SearchResult :=
  enhanceGo fetch now results.length results

/-!
## Summarizer (`GeminiService`)

The text-generation call and the `JSON.parse` of its output are external:
they are modelled by an oracle of type `Except String (Option JVal)` —
`.error e` when `generateContent`/`response` rejects (transport failure),
`.ok none` when the returned text is not valid JSON (`JSON.parse` throws),
and `.ok (some v)` when it parses to the JSON value `v`.  Everything the
wrapper itself does to the parsed value is embedded. -/

/-- JSON values as produced by `JSON.parse`, extended with `undefined` for the
JavaScript `undefined` that a missing property access yields. -/
inductive JVal where
  | undefined
  | null
  | jbool (b : Bool)
  | num (q : ℚ)
  | str (s : String)
  | arr (xs : List JVal)
  | obj (fields : List (String × JVal))
deriving Repr

/-- JavaScript truthiness of a `JVal`. -/
def JVal.truthy : JVal → Bool
  | .undefined => false
  | .null => false
  | .jbool b => b
  | .num q => q ≠ 0
  | .str s => s ≠ ""
  | .arr _ => true
  | .obj _ => true

/-- Property access `v[k]`: the first binding of `k` in an object, and
`undefined` otherwise.  (In JavaScript a property access on `null` throws
instead; in `parseAnalysisResult` that path is inside the same
`try`/`catch` that produces the fallback, so collapsing it to a falsy
`undefined` reaches the same fallback result.) -/
def JVal.getField (v : JVal) (k : String) : JVal :=
  match v with
  | .obj fields =>
    match fields.find? (fun f => f.1 == k) with
    | some f => f.2
    | none => .undefined
  | _ => .undefined

/-- `Array.isArray`. -/
def JVal.isArr : JVal → Bool
  | .arr _ => true
  | _ => false

/-- `a || b` on JSON values. -/
def jsOrJ (a b : JVal) : JVal :=
  if a.truthy then a else b

/-- The final analysis record assembled by `parseAnalysisResult`; each
field holds the JSON value the wrapper put there. -/
structure AnalysisResult where
  summary : JVal
  keyPoints : JVal
  categories : JVal
  sources : JVal
  confidence : JVal
deriving Repr

/-- The conservative fallback analysis returned when parsing or field
validation fails. -/
def fallbackAnalysis : AnalysisResult :=
  { summary := .str "分析结果解析失败，请重试"
    keyPoints := .arr [.str "无法提取关键信息"]
    categories := .arr []
    sources := .arr []
    confidence := .num (1 / 10) }

/-- `GeminiService.parseAnalysisResult`: validate `summary` and
`keyPoints` (which must be an array) on the parsed model output and
assemble the analysis record with `|| []` / `|| 0.7` defaults; any parse
or validation failure yields `fallbackAnalysis` instead of raising.
The argument is the `JSON.parse` outcome of the cleaned text
(`none` = the parse threw). -/
def parseAnalysisResult (parsed : Option JVal) : AnalysisResult :=
  match parsed with
  | none => fallbackAnalysis
  | some p =>
    if !(p.getField "summary").truthy || !(p.getField "keyPoints").truthy
        || !(p.getField "keyPoints").isArr then
      fallbackAnalysis
    else
      { summary := p.getField "summary"
        keyPoints := p.getField "keyPoints"
        categories := jsOrJ (p.getField "categories") (.arr [])
        sources := jsOrJ (p.getField "sources") (.arr [])
        confidence := jsOrJ (p.getField "confidence") (.num (7 / 10)) }

/-- `GeminiService.analyzeSearchResults` (final synthesis): on a
transport failure of the model call the wrapper rethrows
`AI analysis failed: …`; on success it parses with
`parseAnalysisResult`. -/
def analyzeSearchResults (transport : Except String (Option JVal)) :
    Except String AnalysisResult :=
  match transport with
  | .error e => .error ("AI analysis failed: " ++ e)
  | .ok parsed => .ok (parseAnalysisResult parsed)

/-- Remove the code-fence markers, modelling the global replace
`text.replace(/```html\n?|\n?```/g, '')`: scanning left to right, at each
position the first alternative (`` ```html `` with an optional trailing
newline) is preferred, then the second (`` ``` `` with an optional
leading newline). -/
def stripFencesGo (fuel : Nat) (l : List Char) : List Char :=
  match fuel, l with
  | 0, l => l
  | _ + 1, [] => []
  | fuel + 1, c :: rest =>
    if ("```html\n".toList).isPrefixOf (c :: rest) then
      stripFencesGo fuel ((c :: rest).drop 8)
    else if ("```html".toList).isPrefixOf (c :: rest) then
      stripFencesGo fuel ((c :: rest).drop 7)
    else if ("\n```".toList).isPrefixOf (c :: rest) then
      stripFencesGo fuel ((c :: rest).drop 4)
    else if ("```".toList).isPrefixOf (c :: rest) then
      stripFencesGo fuel ((c :: rest).drop 3)
    else
      c :: stripFencesGo fuel rest

/-- Entry point of the fence scan; every scan step consumes at least one
character, so `l.length` steps of fuel always suffice and the fuel-out
branch is unreachable. -/
def stripHtmlFences (l : List Char) : List Char :=
  stripFencesGo l.length l

/-- `GeminiService.cleanHTMLContent`: strip code fences and trim; when
the cleaned text contains neither `<!DOCTYPE html>` nor `<html>`, wrap it
in a minimal HTML shell, otherwise return it unchanged. -/
def cleanHTMLContent (htmlContent : String) : String :=
  let cleaned := String.mk (jsTrimChars (stripHtmlFences htmlContent.toList))
  if !(strIncludes cleaned "<!DOCTYPE html>") && !(strIncludes cleaned "<html>") then
    "<!DOCTYPE html>\n<html>\n" ++ cleaned ++ "\n</html>"
  else
    cleaned

/-!
## Round analysis (`SearchService.analyzeRoundResults`)

The model call plus the `JSON.parse` of its fenced-stripped text is an
oracle `Except String (Option RoundAnalysis)`: `.error` for a rejected
model call, `.ok none` for unparseable output, `.ok (some a)` for a
parsed analysis whose relevant fields are modelled at their specified
string type. -/

/-- The fields of a parsed round analysis that `iterativeSearch` reads
(`keyFindings`, `nextDirection`, `nextQuery`); a missing or `null` field
is `none`. -/
structure RoundAnalysis where
  keyFindings : Option String := none
  nextDirection : Option String := none
  nextQuery : Option String := none
deriving DecidableEq, Repr

/-- `SearchService.analyzeRoundResults`: total — a transport failure
falls back to a no-direction finding, unparseable model output falls back
to the canned `…需要进一步分析` finding with the deterministic
`topic + " 详细信息"` next query for rounds before the third. -/
def analyzeRoundResults (model : Except String (Option RoundAnalysis))
    (topic : String) (round : Nat) : RoundAnalysis :=
  match model with
  | .error _ =>
    { keyFindings := some "分析过程中出现错误"
      nextDirection := none
      nextQuery := none }
  | .ok none =>
    { keyFindings := some "发现相关信息，需要进一步分析"
      nextDirection := if round < 3 then some (topic ++ " 详细信息") else none
      nextQuery := if round < 3 then some (topic ++ " 详细信息") else none }
  | .ok (some parsed) => parsed

/-!
## Screenshot capture (`MCPScreenshotService.captureScreenshot`)
-/

/-- `this.maxRetries`. -/
def screenshotMaxRetries : Nat := 3

/-- `this.retryDelay` in milliseconds. -/
def screenshotRetryDelay : Nat := 1000

/-- A character allowed after the first letter of a URL scheme. -/
def schemeChar (c : Char) : Bool :=
  c.isAlphanum || c == '+' || c == '-' || c == '.'

/-- The `protocol` of `new URL(url)`, abstracted to scheme extraction:
a leading letter followed by scheme characters up to the first `:`
yields the lowercased scheme plus `:`; otherwise the constructor throws
(`none`).  (Validity of the remainder of the URL is not modelled; the
service only consults the protocol.) -/
def urlProtocol (url : String) : Option String :=
  let chars := url.toList
  let scheme := chars.takeWhile (fun c => c ≠ ':')
  if (chars.dropWhile (fun c => c ≠ ':')).isEmpty then none
  else
    match scheme with
    | [] => none
    | c0 :: cs =>
      if c0.isAlpha && cs.all schemeChar then
        some (String.mk ((c0 :: cs).map Char.toLower) ++ ":")
      else none

/-- `MCPScreenshotService.isValidUrl`: the URL parses and its protocol is
`http:` or `https:`. -/
def isValidUrl (url : String) : Bool :=
  match urlProtocol url with
  | some p => p == "http:" || p == "https:"
  | none => false

/-- One attempt of the retry loop: validate the URL, then consult the
capture oracle (`takeMCPScreenshot`, an external browser call returning
image bytes), treating an empty byte result as a failure.  `shot n` is
the oracle outcome of attempt `n`. -/
def captureAttempt (url : String) (shot : Nat → Except String (List Nat))
    (attempt : Nat) : Except String (List Nat) :=
  if !(isValidUrl url) then
    .error ("Invalid URL: " ++ url)
  else
    match shot attempt with
    | .error e => .error e
    | .ok bytes =>
      if bytes.length == 0 then .error "Empty screenshot returned" else .ok bytes

/-- The final error message:
`Screenshot capture failed: lastError?.message || 'Unknown error'`. -/
def captureFailMsg (lastError : Option String) : String :=
  "Screenshot capture failed: " ++
    (match lastError with
      | some m => if m ≠ "" then m else "Unknown error"
      | none => "Unknown error")

/-- The outcome of a `captureScreenshot` run: the returned bytes or the
final error, the number of attempts that executed, and the sequence of
inter-attempt delays (in ms) that were slept. -/
structure CaptureTrace where
  result : Except String (List Nat)
  attemptsUsed : Nat
  delays : List Nat
deriving Repr

/-- The `for (attempt = 1; attempt <= maxRetries; attempt++)` retry loop,
by remaining fuel; a delay of `retryDelay * attempt` is slept after a
failed attempt when further attempts remain. -/
def captureLoop (url : String) (shot : Nat → Except String (List Nat)) :
    Nat → Nat → Option String → CaptureTrace
  | 0, attempt, lastError =>
    { result := .error (captureFailMsg lastError)
      attemptsUsed := attempt - 1
      delays := [] }
  | fuel + 1, attempt, _lastError =>
    match captureAttempt url shot attempt with
    | .ok bytes => { result := .ok bytes, attemptsUsed := attempt, delays := [] }
    | .error e =>
      let rest := captureLoop url shot fuel (attempt + 1) (some e)
      { result := rest.result
        attemptsUsed := rest.attemptsUsed
        delays :=
          (if fuel != 0 then [screenshotRetryDelay * attempt] else []) ++ rest.delays }

/-- `MCPScreenshotService.captureScreenshot`: up to `maxRetries = 3`
attempts starting at attempt 1 with no last error. -/
def captureScreenshot (url : String) (shot : Nat → Except String (List Nat)) :
    CaptureTrace :=
  captureLoop url shot screenshotMaxRetries 1 none

/-!
## The multi-round loop (`SearchService.iterativeSearch`)

The external calls of one round are collected in `IterEnv`:
per-round provider outcomes (for `searchMultipleSources`), the content
fetcher (for `enhanceResultsWithContent`; `scrapePageContent` is total
and yields `""` on failure), a timestamp, and the round-analysis model
oracle.  Screenshot capture, markdown generation and wall-clock fields
of the round record only feed the report artefacts and are not modelled.
-/

/-- The external collaborators consulted by one `iterativeSearch` run,
indexed by round number. -/
structure IterEnv where
  google : Nat → Except String (List SearchResult)
  wikipedia : Nat → Except String (List SearchResult)
  fetch : Nat → String → String
  now : Nat
  analyze : Nat → Except String (Option RoundAnalysis)

/-- The per-round pipeline of the loop body: multi-source search followed
by content enhancement. -/
def runRoundSearch (env : IterEnv) (round : Nat) (q : String)
    (maxResultsPerRound : Nat) : List SearchResult :=
  enhanceResultsWithContent (env.fetch round) env.now
    (searchMultipleSources (env.google round) (env.wikipedia round) q maxResultsPerRound)

/-- The round record pushed onto `searchRounds` (the fields the loop
itself computes). -/
structure RoundData where
  roundNumber : Nat
  query : String
  results : List SearchResult
  keyFindings : Option String
  nextDirection : Option String
deriving DecidableEq, Repr

/-- The query update at the end of a round:
`if (round < maxRounds && roundAnalysis.nextDirection)
   currentQuery = roundAnalysis.nextQuery || roundAnalysis.nextDirection`
— otherwise the query is left unchanged.  (The `.getD q` default is
unreachable: the guard requires a truthy `nextDirection`.) -/
def stepQuery (maxRounds round : Nat) (q : String) (a : RoundAnalysis) : String :=
  if round < maxRounds && jsTruthy a.nextDirection then
    (jsOrStr a.nextQuery a.nextDirection).getD q
  else
    q

/-- The `for (let round = 1; round <= maxRounds; round++)` loop of
`iterativeSearch`, by remaining fuel: run the round pipeline, analyze,
record the round, and continue with the updated query.  The loop body
contains no early exit. -/
def iterRoundsGo (env : IterEnv) (topic : String) (maxRounds maxResultsPerRound : Nat) :
    Nat → Nat → String → List RoundData
  | 0, _, _ => []
  | fuel + 1, round, q =>
    let res := runRoundSearch env round q maxResultsPerRound
    let a := analyzeRoundResults (env.analyze round) topic round
    { roundNumber := round
      query := q
      results := res
      keyFindings := a.keyFindings
      nextDirection := a.nextDirection } ::
      iterRoundsGo env topic maxRounds maxResultsPerRound fuel (round + 1)
        (stepQuery maxRounds round q a)

/-- All rounds of a run: rounds `1 .. maxRounds` starting from the topic
as the initial query. -/
def iterRounds (env : IterEnv) (topic : String) (maxRounds maxResultsPerRound : Nat) :
    List RoundData :=
  iterRoundsGo env topic maxRounds maxResultsPerRound maxRounds 1 topic

/-- The value `iterativeSearch` resolves with (the fields the loop
computes; screenshots, the markdown report and timing are omitted). -/
structure IterResult where
  success : Bool
  topic : String
  searchRounds : List RoundData
  totalResults : Nat
  uniqueResults : List SearchResult
  analysisResult : AnalysisResult
deriving Repr

/-- `SearchService.iterativeSearch`: run all rounds, then the final
synthesis (`analyzeSearchResults`); an error escaping the `try` block —
in particular a final-synthesis transport failure — is rethrown as
`Iterative search failed: …`. -/
def iterativeSearch (env : IterEnv) (finalModel : Except String (Option JVal))
    (topic : String) (maxRounds maxResultsPerRound : Nat) :
    Except String IterResult :=
  let searchRounds := iterRounds env topic maxRounds maxResultsPerRound
  let allResults := (searchRounds.map (fun rd => rd.results)).flatten
  match analyzeSearchResults finalModel with
  | .error e => .error ("Iterative search failed: " ++ e)
  | .ok finalAnalysis =>
    .ok { success := true
          topic := topic
          searchRounds := searchRounds
          totalResults := allResults.length
          uniqueResults := deduplicateResults allResults
          analysisResult := finalAnalysis }

/-- A concrete environment in which every external collaborator fails:
both providers reject, the content fetcher yields nothing, and the
round-analysis model call rejects. -/
def trivialEnv : IterEnv :=
  { google := fun _ => .error "provider down"
    wikipedia := fun _ => .error "provider down"
    fetch := fun _ _ => ""
    now := 0
    analyze := fun _ => .error "model down" }

/-- The value `iterativeSearch` computes in `trivialEnv` with two rounds
and a final synthesis whose output fails to parse. -/
def iterOutW : IterResult :=
  { success := true
    topic := "t"
    searchRounds :=
      [{ roundNumber := 1, query := "t", results := [],
         keyFindings := some "分析过程中出现错误", nextDirection := none },
       { roundNumber := 2, query := "t", results := [],
         keyFindings := some "分析过程中出现错误", nextDirection := none }]
    totalResults := 0
    uniqueResults := []
    analysisResult := fallbackAnalysis }

/-!
## Properties of deduplication (claim C3)
-/

/-- Replacing a duplicate inside `uniqueResults` never changes the URL
sequence. -/
lemma dedupUpdate_map_url (r : SearchResult) :
    ∀ l : List SearchResult,
      (dedupUpdate r l).map (fun x => x.url) = l.map (fun x => x.url)
  | [] => rfl
  | x :: xs => by
    unfold dedupUpdate
    by_cases h : x.url == r.url
    · have hx : x.url = r.url := by simpa using h
      simp only [h, if_true, List.map_cons]
      by_cases hc : dedupReplaceCond r x <;> simp [hc, hx]
    · simp only [h]
      simp [dedupUpdate_map_url r xs]

/-- Every element surviving a duplicate replacement is the incoming
result or one of the previous entries. -/
lemma mem_dedupUpdate (r : SearchResult) :
    ∀ l : List SearchResult, ∀ y ∈ dedupUpdate r l, y = r ∨ y ∈ l
  | [] => by simp [dedupUpdate]
  | x :: xs => by
    unfold dedupUpdate
    by_cases h : x.url == r.url
    · simp only [h, if_true]
      by_cases hc : dedupReplaceCond r x <;> intro y hy <;> simp [hc] at hy <;>
        rcases hy with hy | hy <;> simp [hy]
    · simp only [h, if_false, Bool.false_eq_true, List.mem_cons]
      intro y hy
      rcases hy with hy | hy
      · simp [hy]
      · rcases mem_dedupUpdate r xs y hy with h1 | h1 <;> simp [h1]

lemma dedupStep_inv {acc : List String × List SearchResult}
    (h : DedupInv acc) (r : SearchResult) : DedupInv (dedupStep acc r) := by
  obtain ⟨hseen, hnd⟩ := h
  unfold dedupStep
  by_cases hc : acc.1.contains r.url
  · rw [if_pos hc]
    refine ⟨?_, ?_⟩
    · intro u hu
      rw [dedupUpdate_map_url] at hu
      exact hseen u hu
    · rw [dedupUpdate_map_url]
      exact hnd
  · rw [if_neg hc]
    refine ⟨?_, ?_⟩
    · intro u hu
      rw [List.map_append] at hu
      rcases List.mem_append.mp hu with hu | hu
      · have h2 : u ∈ acc.1 := by simpa using hseen u hu
        simp [List.contains_cons, h2]
      · simp only [List.map_cons, List.map_nil, List.mem_singleton] at hu
        simp [hu, List.contains_cons]
    · rw [List.map_append]
      refine List.Nodup.append hnd (by simp) ?_
      intro u hu hu2
      simp only [List.map_cons, List.map_nil, List.mem_singleton] at hu2
      subst hu2
      exact hc (hseen _ hu)

lemma dedupStep_mem {acc : List String × List SearchResult} (r : SearchResult) :
    ∀ y ∈ (dedupStep acc r).2, y = r ∨ y ∈ acc.2 := by
  unfold dedupStep
  by_cases hc : acc.1.contains r.url <;> simp only [hc, if_true, if_false]
  · intro y hy
    exact mem_dedupUpdate r acc.2 y hy
  · simp only [Bool.false_eq_true, if_false, List.mem_append, List.mem_singleton]
    intro y hy
    tauto

lemma dedup_foldl (rs : List SearchResult) :
    ∀ acc, DedupInv acc →
      DedupInv (rs.foldl dedupStep acc)
        ∧ ∀ y ∈ (rs.foldl dedupStep acc).2, y ∈ acc.2 ∨ y ∈ rs := by
  induction rs with
  | nil => intro acc h; exact ⟨h, fun y hy => Or.inl hy⟩
  | cons r rs ih =>
    intro acc h
    have hstep := dedupStep_inv h r
    obtain ⟨h1, h2⟩ := ih (dedupStep acc r) hstep
    refine ⟨h1, fun y hy => ?_⟩
    rcases h2 y (by simpa using hy) with hy2 | hy2
    · rcases dedupStep_mem r y hy2 with hy3 | hy3
      · exact Or.inr (by simp [hy3])
      · exact Or.inl hy3
    · exact Or.inr (by simp [hy2])

/-- The replacement test agrees with plain comparison of content
lengths (an absent or empty `content` has length 0, which can never win
a strict comparison). -/
lemma dedupReplaceCond_eq (a b : SearchResult) :
    dedupReplaceCond a b = decide (contentLen b < contentLen a) := by
  unfold dedupReplaceCond
  cases h : a.content with
  | none => simp [contentLen, h]
  | some c =>
    by_cases hc : c = ""
    · subst hc
      simp [contentLen, h]
    · simp [contentLen, h, hc, Nat.lt_iff_add_one_le]

/-- **C3.** Deduplication keys by URL: the output never repeats a URL and
only contains input entries; and of two entries sharing a URL the one
with strictly longer extracted content is kept, ties keeping the first
seen. -/
theorem claim_C3_deduplicateResults :
    (∀ results : List SearchResult,
        ((deduplicateResults results).map (fun r => r.url)).Nodup
          ∧ ∀ y ∈ deduplicateResults results, y ∈ results)
      ∧ ∀ r1 r2 : SearchResult, r1.url = r2.url →
          deduplicateResults [r1, r2] =
            [if contentLen r1 < contentLen r2 then r2 else r1] := by
  constructor
  · intro results
    have h := dedup_foldl results ([], []) (by simp [DedupInv])
    refine ⟨h.1.2, fun y hy => ?_⟩
    rcases h.2 y hy with h2 | h2
    · simp at h2
    · exact h2
  · intro r1 r2 h
    unfold deduplicateResults
    simp only [List.foldl_cons, List.foldl_nil]
    have h1 : dedupStep ([], []) r1 = ([r1.url], [r1]) := by
      unfold dedupStep
      simp
    rw [h1]
    have hc : ([r1.url] : List String).contains r2.url = true := by simp [h]
    unfold dedupStep
    rw [if_pos hc]
    have hbeq : (r1.url == r2.url) = true := by simp [h]
    unfold dedupUpdate
    simp only [hbeq, if_true, dedupReplaceCond_eq]
    by_cases hlt : contentLen r1 < contentLen r2 <;> simp [hlt]

/-- Witness for C3: two concrete results with the same URL, the second
with strictly longer content; deduplication keeps the second. -/
theorem claim_C3_witness :
    deduplicateResults
        [{ source := "google", title := "t1", url := "u", snippet := "s1",
           content := some "ab" },
         { source := "wikipedia", title := "t2", url := "u", snippet := "s2",
           content := some "abc" }] =
      [{ source := "wikipedia", title := "t2", url := "u", snippet := "s2",
         content := some "abc" }] := by
  have h := claim_C3_deduplicateResults.2
    { source := "google", title := "t1", url := "u", snippet := "s1",
      content := some "ab" }
    { source := "wikipedia", title := "t2", url := "u", snippet := "s2",
      content := some "abc" }
    rfl
  rw [h]
  decide

/-!
## Properties of content enhancement (claim C10)
-/

/-- With enough fuel (one unit per started batch, so `l.length` always
suffices), the batched loop is exactly a map of `enhanceOne`. -/
lemma enhanceGo_eq_map (fetch : String → String) (now : Nat) :
    ∀ fuel l, l.length ≤ fuel →
      enhanceGo fetch now fuel l = l.map (enhanceOne fetch now) := by
  intro fuel
  induction fuel with
  | zero =>
    intro l h
    have hl : l = [] := List.length_eq_zero.mp (Nat.le_zero.mp h)
    subst hl
    rfl
  | succ n ih =>
    intro l h
    match l with
    | [] => rfl
    | r :: rest =>
      simp only [enhanceGo]
      rw [ih ((r :: rest).drop 5) (by simp only [List.length_drop, List.length_cons] at h ⊢; omega)]
      rw [← List.map_append, List.take_append_drop]

/-- **C10.** Content enhancement returns a list of the same length and
order, each element equal to its input on every field except that
`content` and `scrapedAt` are set; batching (and hence any per-item fetch
failure, which only shows as `fetch r.url = ""`) never removes, reorders
or otherwise mutates a result. -/
theorem claim_C10_enhanceResults_frame (fetch : String → String) (now : Nat)
    (results : List SearchResult) :
    enhanceResultsWithContent fetch now results =
      results.map (fun r =>
        { r with content := some (fetch r.url), scrapedAt := some now })
    ∧ (enhanceResultsWithContent fetch now results).length = results.length := by
  have h2 : enhanceResultsWithContent fetch now results =
      results.map (enhanceOne fetch now) :=
    enhanceGo_eq_map fetch now results.length results le_rfl
  exact ⟨h2, by rw [h2, List.length_map]⟩

/-!
## Properties of the analysis parser (claims C7, C2)
-/

/-- A truthy JSON value is never `undefined`. -/
lemma JVal.truthy_ne_undefined {v : JVal} (h : v.truthy = true) : v ≠ JVal.undefined := by
  intro hEq
  subst hEq
  simp [JVal.truthy] at h

/-- `a || b` is never `undefined` when `b` is not. -/
lemma jsOrJ_ne_undefined (a : JVal) {b : JVal} (hb : b ≠ JVal.undefined) :
    jsOrJ a b ≠ JVal.undefined := by
  unfold jsOrJ
  split
  · exact JVal.truthy_ne_undefined (by assumption)
  · exact hb

/-- **C7.** Parsing the analysis result is total (never raises): the
`confidence` field of the returned record is never absent, a parse
failure or a failed `summary`/`keyPoints` validation returns the full
fallback record, and that fallback carries the conservative confidence
`0.1`. -/
theorem claim_C7_parseAnalysisResult_fallback :
    (∀ parsed : Option JVal,
        (parseAnalysisResult parsed).confidence ≠ JVal.undefined)
      ∧ parseAnalysisResult none = fallbackAnalysis
      ∧ (∀ p : JVal,
          (!(p.getField "summary").truthy || !(p.getField "keyPoints").truthy
              || !(p.getField "keyPoints").isArr) = true →
            parseAnalysisResult (some p) = fallbackAnalysis)
      ∧ fallbackAnalysis.confidence = JVal.num (1 / 10) := by
  refine ⟨?_, rfl, ?_, rfl⟩
  · intro parsed
    cases parsed with
    | none =>
      intro h
      simp [parseAnalysisResult, fallbackAnalysis] at h
    | some p =>
      simp only [parseAnalysisResult]
      split
      · intro h
        simp [fallbackAnalysis] at h
      · exact jsOrJ_ne_undefined _ (by intro h; cases h)
  · intro p h
    simp only [parseAnalysisResult]
    rw [if_pos h]

/-- Witness for C7 at a concrete unparseable output and a concrete
object missing the required fields. -/
theorem claim_C7_witness :
    (parseAnalysisResult (some (JVal.obj [])) = fallbackAnalysis)
      ∧ (parseAnalysisResult (some (JVal.obj []))).confidence ≠ JVal.undefined :=
  ⟨claim_C7_parseAnalysisResult_fallback.2.2.1 (JVal.obj []) (by decide),
   claim_C7_parseAnalysisResult_fallback.1 (some (JVal.obj []))⟩

/-!
## Properties of HTML cleaning (claim C8)
-/

/-- A prefix of a list remains a prefix after appending. -/
lemma isPrefixOf_append_right {a b : List Char} (c : List Char)
    (h : a.isPrefixOf b = true) : a.isPrefixOf (b ++ c) = true :=
  List.isPrefixOf_iff_prefix.mpr
    ((List.isPrefixOf_iff_prefix.mp h).trans (List.prefix_append _ _))

/-- A list contains every one of its prefixes as a segment. -/
lemma containsSeg_of_isPrefixOf {needle hay : List Char}
    (h : needle.isPrefixOf hay = true) : containsSeg needle hay = true := by
  cases hay with
  | nil =>
    cases needle with
    | nil => rfl
    | cons c t => simp [List.isPrefixOf] at h
  | cons c t =>
    unfold containsSeg
    rw [h]
    simp

/-- **C8 (amended).**  The cleaned document always *contains* a document
root marker: when the cleaned model output lacks both `<!DOCTYPE html>`
and `<html>` it is wrapped in the minimal shell (and the wrapped output
even begins with `<!DOCTYPE html>`), and otherwise it is returned
unchanged, already containing a marker — though not necessarily at the
beginning. -/
theorem claim_C8_cleanHTMLContent_marker (raw : String) :
    (strIncludes (cleanHTMLContent raw) "<!DOCTYPE html>" = true
        ∨ strIncludes (cleanHTMLContent raw) "<html>" = true)
      ∧ (strIncludes (String.mk (jsTrimChars (stripHtmlFences raw.toList)))
            "<!DOCTYPE html>" = false →
          strIncludes (String.mk (jsTrimChars (stripHtmlFences raw.toList)))
            "<html>" = false →
          cleanHTMLContent raw =
              "<!DOCTYPE html>\n<html>\n" ++
                String.mk (jsTrimChars (stripHtmlFences raw.toList)) ++ "\n</html>"
            ∧ ("<!DOCTYPE html>".toList.isPrefixOf
                (cleanHTMLContent raw).toList) = true) := by
  have hdef : cleanHTMLContent raw =
      if (!strIncludes (String.mk (jsTrimChars (stripHtmlFences raw.toList)))
            "<!DOCTYPE html>"
          && !strIncludes (String.mk (jsTrimChars (stripHtmlFences raw.toList)))
            "<html>") = true then
        "<!DOCTYPE html>\n<html>\n" ++
          String.mk (jsTrimChars (stripHtmlFences raw.toList)) ++ "\n</html>"
      else
        String.mk (jsTrimChars (stripHtmlFences raw.toList)) := rfl
  by_cases hcond : (!strIncludes (String.mk (jsTrimChars (stripHtmlFences raw.toList)))
        "<!DOCTYPE html>"
      && !strIncludes (String.mk (jsTrimChars (stripHtmlFences raw.toList)))
        "<html>") = true
  · rw [hdef, if_pos hcond]
    have hpre : ("<!DOCTYPE html>".toList.isPrefixOf
        ("<!DOCTYPE html>\n<html>\n" ++
          String.mk (jsTrimChars (stripHtmlFences raw.toList)) ++
            "\n</html>").toList) = true := by
      have hsplit : ("<!DOCTYPE html>\n<html>\n" ++
          String.mk (jsTrimChars (stripHtmlFences raw.toList)) ++
            "\n</html>").toList =
          "<!DOCTYPE html>\n<html>\n".toList ++
            ((String.mk (jsTrimChars (stripHtmlFences raw.toList))).toList ++
              "\n</html>".toList) := by
        simp [String.toList, String.data_append]
      rw [hsplit]
      exact isPrefixOf_append_right _ (by decide)
    refine ⟨Or.inl ?_, fun _ _ => ⟨rfl, hpre⟩⟩
    unfold strIncludes
    exact containsSeg_of_isPrefixOf hpre
  · rw [hdef, if_neg hcond]
    rw [Bool.and_eq_true, Bool.not_eq_true', Bool.not_eq_true', not_and_or] at hcond
    have hor : strIncludes (String.mk (jsTrimChars (stripHtmlFences raw.toList)))
          "<!DOCTYPE html>" = true
        ∨ strIncludes (String.mk (jsTrimChars (stripHtmlFences raw.toList)))
          "<html>" = true := by
      rcases hcond with h | h
      · exact Or.inl (by simpa using h)
      · exact Or.inr (by simpa using h)
    refine ⟨hor, fun hf1 hf2 => ?_⟩
    rcases hor with h | h
    · rw [hf1] at h
      cases h
    · rw [hf2] at h
      cases h

/-- Counterexample for C8 as stated: a model output whose cleaned form
contains `<html>` in the middle is returned unchanged and does not begin
with any root marker. -/
theorem claim_C8_counterexample :
    cleanHTMLContent "a<html></html>" = "a<html></html>"
      ∧ ("<!DOCTYPE html>".toList.isPrefixOf
          (cleanHTMLContent "a<html></html>").toList) = false
      ∧ ("<html>".toList.isPrefixOf
          (cleanHTMLContent "a<html></html>").toList) = false := by
  decide

/-- Witness for the amended C8 at a concrete output without any marker:
it gets wrapped and begins with `<!DOCTYPE html>`. -/
theorem claim_C8_witness :
    cleanHTMLContent "hello" = "<!DOCTYPE html>\n<html>\nhello\n</html>"
      ∧ ("<!DOCTYPE html>".toList.isPrefixOf
          (cleanHTMLContent "hello").toList) = true := by
  have h := (claim_C8_cleanHTMLContent_marker "hello").2 (by decide) (by decide)
  exact ⟨h.1.trans (by decide), h.2⟩

/-!
## Properties of screenshot capture (claim C6)
-/

/-- Characterization of the retry loop started at `attempt` with `fuel`
remaining tries: the number of executed attempts is bounded, and the
slept delays are exactly `retryDelay * a` for the attempts `a` that
failed with a retry remaining. -/
lemma captureLoop_spec (url : String) (shot : Nat → Except String (List Nat)) :
    ∀ fuel attempt le,
      (captureLoop url shot fuel attempt le).attemptsUsed ≤ attempt + fuel - 1
        ∧ (fuel ≠ 0 → attempt ≤ (captureLoop url shot fuel attempt le).attemptsUsed)
        ∧ (fuel = 0 → (captureLoop url shot fuel attempt le).attemptsUsed = attempt - 1)
        ∧ (captureLoop url shot fuel attempt le).delays =
            (List.range' attempt
              ((captureLoop url shot fuel attempt le).attemptsUsed - attempt)).map
              (fun a => screenshotRetryDelay * a) := by
  intro fuel
  induction fuel with
  | zero =>
    intro attempt le
    refine ⟨Nat.le_refl _, fun h => absurd rfl h, fun _ => rfl, ?_⟩
    show ([] : List Nat) = _
    simp [captureLoop]
  | succ fuel ih =>
    intro attempt le
    simp only [captureLoop]
    cases hA : captureAttempt url shot attempt with
    | ok bytes =>
      dsimp only
      refine ⟨by omega, fun _ => le_rfl, by omega, ?_⟩
      simp
    | error e =>
      dsimp only
      obtain ⟨ih1, ih2, ih3, ih4⟩ := ih (attempt + 1) (some e)
      refine ⟨by omega, ?_, by omega, ?_⟩
      · intro _
        by_cases hf : fuel = 0
        · have h3 := ih3 hf
          simp only [h3]
          omega
        · have h2 := ih2 hf
          omega
      · by_cases hf : fuel = 0
        · subst hf
          have h3 := ih3 rfl
          simp [captureLoop, h3]
        · have h2 := ih2 hf
          have hff : (fuel != 0) = true := by simpa using hf
          simp only [hff, if_true]
          rw [ih4]
          have hn : (captureLoop url shot fuel (attempt + 1) (some e)).attemptsUsed - attempt
              = ((captureLoop url shot fuel (attempt + 1) (some e)).attemptsUsed
                  - (attempt + 1)) + 1 := by omega
          rw [hn, List.range'_succ, List.map_cons]
          rfl

/-- When every attempt in the window fails, the loop ends in an error. -/
lemma captureLoop_all_fail (url : String) (shot : Nat → Except String (List Nat)) :
    ∀ fuel attempt le,
      (∀ a, attempt ≤ a → a < attempt + fuel →
        ∃ e, captureAttempt url shot a = .error e) →
      ∃ e, (captureLoop url shot fuel attempt le).result = .error e := by
  intro fuel
  induction fuel with
  | zero => intro attempt le _; exact ⟨_, rfl⟩
  | succ fuel ih =>
    intro attempt le h
    obtain ⟨e, he⟩ := h attempt le_rfl (by omega)
    simp only [captureLoop, he]
    exact ih (attempt + 1) (some e) (fun a h1 h2 => h a (by omega) (by omega))

/-- When every attempt fails with the same message, the loop runs through
all its fuel, sleeps a linearly growing delay after each non-final
attempt, and ends with that message wrapped in the capture error. -/
lemma captureLoop_const_fail (url : String) (shot : Nat → Except String (List Nat))
    (msg : String) :
    ∀ fuel attempt le, (∀ a, captureAttempt url shot a = .error msg) → 1 ≤ fuel →
      captureLoop url shot fuel attempt le =
        { result := .error (captureFailMsg (some msg))
          attemptsUsed := attempt + fuel - 1
          delays := (List.range' attempt (fuel - 1)).map
            (fun a => screenshotRetryDelay * a) } := by
  intro fuel
  induction fuel with
  | zero => intro attempt le _ h1; omega
  | succ fuel ih =>
    intro attempt le hall _
    simp only [captureLoop, hall attempt]
    cases Nat.eq_zero_or_pos fuel with
    | inl hf =>
      subst hf
      simp [captureLoop]
    | inr hf =>
      rw [ih (attempt + 1) (some msg) hall hf]
      have hff : (fuel != 0) = true := by simpa using Nat.pos_iff_ne_zero.mp hf
      simp only [hff, if_true]
      have hAU : attempt + 1 + fuel - 1 = attempt + (fuel + 1) - 1 := by omega
      have hD : [screenshotRetryDelay * attempt] ++
          (List.range' (attempt + 1) (fuel - 1)).map (fun a => screenshotRetryDelay * a)
          = (List.range' attempt (fuel + 1 - 1)).map (fun a => screenshotRetryDelay * a) := by
        have hn : fuel + 1 - 1 = (fuel - 1) + 1 := by omega
        rw [hn, List.range'_succ]
        simp
      rw [hAU, hD]

/-- The invalid-URL message is never the empty string, so it survives the
`lastError?.message || 'Unknown error'` default. -/
lemma invalidUrlMsg_ne_empty (url : String) : ("Invalid URL: " ++ url) ≠ "" := by
  intro h
  have h2 : ("Invalid URL: " ++ url).data = ("" : String).data := congrArg String.data h
  rw [String.data_append] at h2
  have h3 := congrArg List.length h2
  simp at h3

/-- **C6.** Screenshot capture makes at most 3 attempts; the slept delays
scale linearly (`attempt × 1000 ms`); a URL whose scheme is not http or
https fails every attempt regardless of the capture oracle; an empty byte
result counts as a failed attempt and is retried; and when every attempt
fails the operation ends in an error rather than returning bytes. -/
theorem claim_C6_captureScreenshot (url : String)
    (shot : Nat → Except String (List Nat)) :
    (captureScreenshot url shot).attemptsUsed ≤ 3
      ∧ (captureScreenshot url shot).delays =
          (List.range' 1 ((captureScreenshot url shot).attemptsUsed - 1)).map
            (fun a => screenshotRetryDelay * a)
      ∧ (isValidUrl url = false →
          captureScreenshot url shot =
            { result := .error ("Screenshot capture failed: " ++ ("Invalid URL: " ++ url))
              attemptsUsed := 3
              delays := [screenshotRetryDelay * 1, screenshotRetryDelay * 2] })
      ∧ (isValidUrl url = true → (∀ a, shot a = .ok []) →
          captureScreenshot url shot =
            { result := .error "Screenshot capture failed: Empty screenshot returned"
              attemptsUsed := 3
              delays := [screenshotRetryDelay * 1, screenshotRetryDelay * 2] })
      ∧ ((∀ a, 1 ≤ a → a ≤ 3 → ∃ e, captureAttempt url shot a = .error e) →
          ∃ e, (captureScreenshot url shot).result = .error e) := by
  obtain ⟨h1, _, _, h4⟩ := captureLoop_spec url shot screenshotMaxRetries 1 none
  refine ⟨h1, h4, ?_, ?_, ?_⟩
  · intro hinv
    have hatt : ∀ a, captureAttempt url shot a = .error ("Invalid URL: " ++ url) := by
      intro a
      unfold captureAttempt
      rw [hinv]
      rfl
    have h := captureLoop_const_fail url shot ("Invalid URL: " ++ url)
      screenshotMaxRetries 1 none hatt (by decide)
    rw [captureScreenshot, h]
    have hmsg : captureFailMsg (some ("Invalid URL: " ++ url)) =
        "Screenshot capture failed: " ++ ("Invalid URL: " ++ url) := by
      unfold captureFailMsg
      dsimp only
      rw [if_pos (invalidUrlMsg_ne_empty url)]
    rw [hmsg]
    rfl
  · intro hval hempty
    have hatt : ∀ a, captureAttempt url shot a = .error "Empty screenshot returned" := by
      intro a
      unfold captureAttempt
      rw [hval, hempty a]
      rfl
    have h := captureLoop_const_fail url shot "Empty screenshot returned"
      screenshotMaxRetries 1 none hatt (by decide)
    rw [captureScreenshot, h]
    rfl
  · intro hall
    refine captureLoop_all_fail url shot screenshotMaxRetries 1 none
      (fun a ha1 ha2 => hall a ha1 ?_)
    have h3 : screenshotMaxRetries = 3 := rfl
    omega

/-- Witness for C6: a concrete non-http URL exhausts all three attempts
with linear delays and ends in the capture error. -/
theorem claim_C6_witness :
    captureScreenshot "ftp://x" (fun _ => .ok [1]) =
      { result := .error ("Screenshot capture failed: " ++ ("Invalid URL: " ++ "ftp://x"))
        attemptsUsed := 3
        delays := [screenshotRetryDelay * 1, screenshotRetryDelay * 2] } :=
  (claim_C6_captureScreenshot "ftp://x" (fun _ => .ok [1])).2.2.1 (by decide)

/-!
## Properties of ranking (claim C4)
-/

/-- Closed form of the `forEach` score accumulation: twice the number of
query terms contained in the title plus the number contained in
title+snippet. -/
lemma relevanceBase_foldl (ti tx : List Char) :
    ∀ (ts : List (List Char)) (acc : ℕ),
      ts.foldl (fun sc term =>
          (sc + (if containsSeg term ti then 2 else 0)) +
            (if containsSeg term tx then 1 else 0)) acc
        = acc + 2 * ts.countP (fun t => containsSeg t ti)
            + ts.countP (fun t => containsSeg t tx) := by
  intro ts
  induction ts with
  | nil => intro acc; simp
  | cons t ts ih =>
    intro acc
    rw [List.foldl_cons, ih, List.countP_cons, List.countP_cons]
    by_cases h1 : containsSeg t ti <;> by_cases h2 : containsSeg t tx <;>
      simp [h1, h2] <;> ring

lemma relevanceBase_eq (ts : List (List Char)) (ti tx : List Char) :
    relevanceBase ts ti tx =
      2 * ts.countP (fun t => containsSeg t ti)
        + ts.countP (fun t => containsSeg t tx) := by
  simpa [relevanceBase] using relevanceBase_foldl ti tx ts 0

/-- Inserting an element into a list moves it past exactly the
strictly-greater scores, so each score class keeps its relative order
with the inserted element in front of none of its own class members that
were already present. -/
lemma filter_orderedInsert (s : ℚ) (a : SearchResult) :
    ∀ l : List SearchResult,
      (l.orderedInsert scoreGE a).filter (fun r => decide (r.relevanceScore = s))
        = if a.relevanceScore = s then
            a :: l.filter (fun r => decide (r.relevanceScore = s))
          else
            l.filter (fun r => decide (r.relevanceScore = s)) := by
  intro l
  induction l with
  | nil =>
    rw [List.orderedInsert_nil]
    by_cases has : a.relevanceScore = s <;> simp [List.filter_cons, has]
  | cons x xs ih =>
    rw [List.orderedInsert]
    by_cases hord : scoreGE a x
    · rw [if_pos hord]
      by_cases has : a.relevanceScore = s <;> simp [List.filter_cons, has]
    · rw [if_neg hord]
      rw [List.filter_cons, ih]
      by_cases has : a.relevanceScore = s
      · by_cases hxs : x.relevanceScore = s
        · exact absurd (by rw [scoreGE, has, hxs] : scoreGE a x) hord
        · simp [has, hxs, List.filter_cons]
      · by_cases hxs : x.relevanceScore = s <;> simp [has, hxs, List.filter_cons]

/-- Stability of the sort, stated per score class: filtering any single
score out of the sorted list yields exactly the same sequence as
filtering it out of the input. -/
lemma filter_insertionSort (s : ℚ) :
    ∀ l : List SearchResult,
      (l.insertionSort scoreGE).filter (fun r => decide (r.relevanceScore = s))
        = l.filter (fun r => decide (r.relevanceScore = s)) := by
  intro l
  induction l with
  | nil => rfl
  | cons x xs ih =>
    rw [List.insertionSort, filter_orderedInsert, ih]
    by_cases hxs : x.relevanceScore = s <;> simp [List.filter_cons, hxs]

/-- **C4.** The relevance score is `(2·|terms in title| + |terms in
title+snippet|) · sourceWeight` with the wikipedia weight above google
above other; the returned list is a permutation of the scored input,
sorted descending by score, and stable on ties (each score class keeps
its merge order). -/
theorem claim_C4_sortResultsByRelevance (results : List SearchResult) (query : String) :
    (∀ r : SearchResult,
        (addRelevanceScore query r).relevanceScore =
          (((2 * (queryTokens query).countP (fun t => containsSeg t (titleChars r))
              + (queryTokens query).countP (fun t => containsSeg t (textChars r)) : ℕ) : ℚ)
            * sourceWeight r.source))
      ∧ (sourceWeight "google" < sourceWeight "wikipedia"
          ∧ sourceWeight "other" < sourceWeight "google")
      ∧ List.Sorted scoreGE (sortResultsByRelevance results query)
      ∧ List.Perm (sortResultsByRelevance results query)
          (results.map (addRelevanceScore query))
      ∧ ∀ s : ℚ,
          (sortResultsByRelevance results query).filter
              (fun r => decide (r.relevanceScore = s)) =
            (results.map (addRelevanceScore query)).filter
              (fun r => decide (r.relevanceScore = s)) := by
  refine ⟨?_, ⟨?_, ?_⟩, ?_, ?_, ?_⟩
  · intro r
    simp [addRelevanceScore, relevanceBase_eq]
  · simp [sourceWeight]
    norm_num
  · simp [sourceWeight]
    norm_num
  · exact List.sorted_insertionSort scoreGE _
  · exact List.perm_insertionSort scoreGE _
  · intro s
    exact filter_insertionSort s _

/-!
## Properties of the round loop (claims C9, C1, C2, C5)
-/

/-- The loop executes exactly its fuel's worth of rounds, numbered
consecutively from the starting round. -/
lemma iterRoundsGo_spec (env : IterEnv) (topic : String)
    (maxRounds maxResultsPerRound : Nat) :
    ∀ fuel round q,
      (iterRoundsGo env topic maxRounds maxResultsPerRound fuel round q).length = fuel
        ∧ (iterRoundsGo env topic maxRounds maxResultsPerRound fuel round q).map
            (fun rd => rd.roundNumber) = List.range' round fuel := by
  intro fuel
  induction fuel with
  | zero => intro round q; exact ⟨rfl, rfl⟩
  | succ fuel ih =>
    intro round q
    obtain ⟨ih1, ih2⟩ := ih (round + 1)
      (stepQuery maxRounds round q (analyzeRoundResults (env.analyze round) topic round))
    simp only [iterRoundsGo]
    refine ⟨by simp [ih1], ?_⟩
    simp only [List.map_cons, ih2]
    rw [List.range'_succ]

/-- The first round the loop produces (if any) carries the starting
query and round number. -/
lemma iterRoundsGo_head (env : IterEnv) (topic : String)
    (maxRounds maxResultsPerRound : Nat) (fuel round : Nat) (q : String) :
    ∀ rd ∈ (iterRoundsGo env topic maxRounds maxResultsPerRound fuel round q).head?,
      rd.query = q ∧ rd.roundNumber = round := by
  cases fuel with
  | zero => intro rd h; cases h
  | succ fuel =>
    intro rd h
    simp only [iterRoundsGo, List.head?_cons, Option.mem_def, Option.some.injEq] at h
    subst h
    exact ⟨rfl, rfl⟩

/-- Consecutive rounds are linked by `stepQuery`: the next round's query
is computed from the previous round's query and its analysis outcome. -/
lemma iterRoundsGo_chain (env : IterEnv) (topic : String)
    (maxRounds maxResultsPerRound : Nat) :
    ∀ fuel round q,
      List.Chain'
        (fun a b =>
          b.query = stepQuery maxRounds a.roundNumber a.query
            (analyzeRoundResults (env.analyze a.roundNumber) topic a.roundNumber))
        (iterRoundsGo env topic maxRounds maxResultsPerRound fuel round q) := by
  intro fuel
  induction fuel with
  | zero => intro round q; exact List.chain'_nil
  | succ fuel ih =>
    intro round q
    simp only [iterRoundsGo]
    rw [List.chain'_cons']
    refine ⟨?_, ih (round + 1) _⟩
    intro b hb
    obtain ⟨hq, _⟩ := iterRoundsGo_head env topic maxRounds maxResultsPerRound
      fuel (round + 1) _ b hb
    exact hq

/-- **C9.** Every completed run returns at most `maxRounds` rounds, and
their round numbers are the consecutive sequence starting at 1. -/
theorem claim_C9_iterativeSearch_rounds (env : IterEnv)
    (finalModel : Except String (Option JVal)) (topic : String)
    (maxRounds maxResultsPerRound : Nat) (out : IterResult)
    (h : iterativeSearch env finalModel topic maxRounds maxResultsPerRound = .ok out) :
    out.searchRounds.length ≤ maxRounds
      ∧ out.searchRounds.map (fun rd => rd.roundNumber) =
          List.range' 1 out.searchRounds.length := by
  have hrounds : out.searchRounds = iterRounds env topic maxRounds maxResultsPerRound := by
    unfold iterativeSearch at h
    cases hA : analyzeSearchResults finalModel with
    | error e => rw [hA] at h; cases h
    | ok a => rw [hA] at h; cases h; rfl
  obtain ⟨hlen, hmap⟩ :=
    iterRoundsGo_spec env topic maxRounds maxResultsPerRound maxRounds 1 topic
  rw [hrounds]
  refine ⟨?_, ?_⟩
  · rw [iterRounds, hlen]
  · rw [iterRounds, hmap, hlen]

/-- Witness for C9: the concrete two-round run in the all-failing
environment completes with rounds numbered `[1, 2]`. -/
theorem claim_C9_witness :
    iterOutW.searchRounds.length ≤ 2
      ∧ iterOutW.searchRounds.map (fun rd => rd.roundNumber) =
          List.range' 1 iterOutW.searchRounds.length :=
  claim_C9_iterativeSearch_rounds trivialEnv (.ok none) "t" 2 8 iterOutW (by rfl)

/-- **C1 (amended).**  The round loop never exits early: a completed loop
always executes exactly `maxRounds` rounds, whatever the analyses return
(a null `nextQuery` does not break the loop).  Consecutive queries are
linked by `stepQuery`: when the budget is not yet exhausted and the
analysis proposes a truthy `nextDirection`, the next round runs with the
proposed `nextQuery` when that is truthy (else with `nextDirection`), and
otherwise the query is unchanged. -/
theorem claim_C1_loop_no_early_exit (env : IterEnv) (topic : String)
    (maxRounds maxResultsPerRound : Nat) :
    (iterRounds env topic maxRounds maxResultsPerRound).length = maxRounds
      ∧ List.Chain'
          (fun a b =>
            b.query = stepQuery maxRounds a.roundNumber a.query
              (analyzeRoundResults (env.analyze a.roundNumber) topic a.roundNumber))
          (iterRounds env topic maxRounds maxResultsPerRound)
      ∧ ∀ (round : Nat) (q s : String) (a : RoundAnalysis),
          round < maxRounds → a.nextQuery = some s → s ≠ "" →
          jsTruthy a.nextDirection = true →
          stepQuery maxRounds round q a = s := by
  refine ⟨(iterRoundsGo_spec env topic maxRounds maxResultsPerRound maxRounds 1 topic).1,
    iterRoundsGo_chain env topic maxRounds maxResultsPerRound maxRounds 1 topic, ?_⟩
  intro round q s a hlt hq hs hdir
  unfold stepQuery
  have hcond : (decide (round < maxRounds) && jsTruthy a.nextDirection) = true := by
    simp [hlt, hdir]
  rw [if_pos hcond]
  unfold jsOrStr
  have htr : jsTruthy a.nextQuery = true := by
    rw [hq]
    simpa [jsTruthy] using hs
  rw [if_pos htr, hq]
  rfl

/-- Witness for the amended C1: with the budget not exhausted and a
truthy direction, a proposed query `"q2"` becomes the next round's
query. -/
theorem claim_C1_witness :
    stepQuery 2 1 "t"
        { keyFindings := none, nextDirection := some "d", nextQuery := some "q2" } =
      "q2" :=
  (claim_C1_loop_no_early_exit trivialEnv "t" 2 8).2.2 1 "t" "q2"
    { keyFindings := none, nextDirection := some "d", nextQuery := some "q2" }
    (by decide) rfl (by decide) (by decide)

/-- Counterexample for C1 as stated: in the all-failing environment the
round-1 analysis yields a null `nextQuery`, yet with a budget of 2 the
loop still runs both rounds — it never exits early. -/
theorem claim_C1_counterexample :
    (analyzeRoundResults (trivialEnv.analyze 1) "t" 1).nextQuery = none
      ∧ (iterRounds trivialEnv "t" 2 8).length = 2
      ∧ ¬ (iterRounds trivialEnv "t" 2 8).length < 2 :=
  ⟨rfl, rfl, by decide⟩

/-- **C2 (amended).**  A transport failure of the round-level analysis is
absorbed as a no-direction fallback and a final-synthesis *parse* failure
surfaces as the conservative confidence-0.1 fallback with the job still
completing; but a final-synthesis *transport* failure is rethrown and
aborts the whole job with an error. -/
theorem claim_C2_model_failures (e : String) (topic : String) (round : Nat)
    (env : IterEnv) (maxRounds maxResultsPerRound : Nat) :
    analyzeRoundResults (.error e) topic round =
        { keyFindings := some "分析过程中出现错误"
          nextDirection := none
          nextQuery := none }
      ∧ analyzeSearchResults (.ok none) = .ok fallbackAnalysis
      ∧ fallbackAnalysis.confidence = JVal.num (1 / 10)
      ∧ (iterativeSearch env (.ok none) topic maxRounds maxResultsPerRound).isOk = true
      ∧ iterativeSearch env (.error e) topic maxRounds maxResultsPerRound =
          .error ("Iterative search failed: " ++ ("AI analysis failed: " ++ e)) :=
  ⟨rfl, rfl, rfl, rfl, rfl⟩

/-- Counterexample for C2 as stated: a transport failure of the
final-synthesis model call makes the whole job reject with an error —
the job aborts instead of completing with a low-confidence fallback. -/
theorem claim_C2_counterexample :
    iterativeSearch trivialEnv (.error "network down") "t" 1 8 =
      .error ("Iterative search failed: " ++ ("AI analysis failed: " ++ "network down")) :=
  rfl

/-- With both providers failed a round search merges nothing and returns
the empty list. -/
lemma searchMultipleSources_both_fail (e1 e2 q : String) (m : Nat) :
    searchMultipleSources (.error e1) (.error e2) q m = [] := by
  show (sortResultsByRelevance (deduplicateResults ([] ++ [])) q).take m = []
  rw [show sortResultsByRelevance (deduplicateResults ([] ++ [])) q = [] from rfl]
  exact List.take_nil

/-- **C5.** A failed provider contributes exactly as many results as a
provider returning none; with both providers failed, the round's search
and enhancement yield the empty list, the round analysis still runs (it
is total) and yields a fallback finding on model failure, and the job
still completes whenever the final synthesis parses. -/
theorem claim_C5_provider_failures :
    (∀ (e q : String) (m : Nat) (wiki : Except String (List SearchResult)),
        searchMultipleSources (.error e) wiki q m =
          searchMultipleSources (.ok []) wiki q m)
      ∧ (∀ (e q : String) (m : Nat) (goog : Except String (List SearchResult)),
          searchMultipleSources goog (.error e) q m =
            searchMultipleSources goog (.ok []) q m)
      ∧ (∀ (e1 e2 q : String) (m : Nat),
          searchMultipleSources (.error e1) (.error e2) q m = [])
      ∧ (∀ (env : IterEnv) (round m : Nat) (q e1 e2 : String),
          env.google round = .error e1 → env.wikipedia round = .error e2 →
          runRoundSearch env round q m = [])
      ∧ (∀ (e topic : String) (round : Nat),
          analyzeRoundResults (.error e) topic round =
            { keyFindings := some "分析过程中出现错误"
              nextDirection := none
              nextQuery := none })
      ∧ (∀ (env : IterEnv) (topic : String) (maxRounds maxResultsPerRound : Nat)
          (parsed : Option JVal),
          (iterativeSearch env (.ok parsed) topic maxRounds maxResultsPerRound).isOk
            = true) := by
  refine ⟨fun _ _ _ _ => rfl, fun _ _ _ _ => rfl,
    fun e1 e2 q m => searchMultipleSources_both_fail e1 e2 q m, ?_,
    fun _ _ _ => rfl, fun _ _ _ _ _ => rfl⟩
  intro env round m q e1 e2 hg hw
  unfold runRoundSearch
  rw [hg, hw, searchMultipleSources_both_fail]
  rfl

/-- Witness for C5: in the concrete all-failing environment a round's
search pipeline returns no results, and the job with a parse-failing
final synthesis still completes. -/
theorem claim_C5_witness :
    runRoundSearch trivialEnv 1 "t" 8 = [] :=
  claim_C5_provider_failures.2.2.2.1 trivialEnv 1 8 "t" "provider down" "provider down"
    rfl rfl
